import Mathlib

/-!
# Verification of the knuu core: builder-factory hashing/caching and instance teardown

Shallow embedding of the Go sources:

* `pkg/container` (file `docker.go` of package `container`): the
  `BuilderFactory` struct, its instruction-recording methods
  (`ExecuteCmdInBuilder`, `AddToBuilder`, `SetEnvVar`, `SetUser`), `Changed`,
  `PushBuilderImage`, `ReadFileFromBuilder` and `GenerateImageHash`.
* `pkg/knuu/instance_destroy.go`: `Instance.Destroy` and `BatchDestroy`.

Modelling conventions:

* Machine words are `Nat` with explicit `% 2^32`; bytes are `Nat` (< 256 by
  construction).
* The SHA-256 digest used by `GenerateImageHash` (Go `crypto/sha256`) is
  implemented concretely over byte lists (FIPS 180-4), producing the lowercase
  hex rendering that `fmt.Sprintf("%x", hasher.Sum(nil))` produces.
* Go strings are Lean `String`s; `[]byte(s)` is modelled by UTF-8 encoding of
  the code points (`utf8Bytes`).
* The build-context directory is modelled in memory as a flat list of
  (file name, byte content) entries; `filepath.Walk` visits the entries of a
  directory in sorted name order, modelled by `walkOrder` (a sort by name).
  Regular files only (the walk skips directories); the flat model covers one
  directory level, where walk order and lexicographic name order coincide.
* External effects (Docker daemon calls, Kubernetes deletions, file writes)
  are oracles supplied in an environment record, and each embedded operation
  additionally returns the chronological list of remote calls it attempted,
  so that "performs no remote deletions" and ordering claims are statable.
* Fallible operations return an `Option`/`Except` error mirroring the
  package's error values.
-/

namespace Knuu

/-! ## SHA-256 over byte lists (Go `crypto/sha256`) -/

/-- 32-bit modular addition. -/
def add32 (a b : Nat) : Nat := (a + b) % 4294967296

/-- Bitwise complement on 32-bit words (valid for `x < 2^32`). -/
def not32 (x : Nat) : Nat := 4294967295 - x

/-- Right rotation of a 32-bit word. -/
def rotr32 (n x : Nat) : Nat := (x >>> n) ||| ((x <<< (32 - n)) % 4294967296)

/-- SHA-256 Σ₀. -/
def bigSigma0 (x : Nat) : Nat := (rotr32 2 x) ^^^ ((rotr32 13 x) ^^^ (rotr32 22 x))

/-- SHA-256 Σ₁. -/
def bigSigma1 (x : Nat) : Nat := (rotr32 6 x) ^^^ ((rotr32 11 x) ^^^ (rotr32 25 x))

/-- SHA-256 σ₀. -/
def smallSigma0 (x : Nat) : Nat := (rotr32 7 x) ^^^ ((rotr32 18 x) ^^^ (x >>> 3))

/-- SHA-256 σ₁. -/
def smallSigma1 (x : Nat) : Nat := (rotr32 17 x) ^^^ ((rotr32 19 x) ^^^ (x >>> 10))

/-- Trial-division primality test. -/
def isPrime (n : Nat) : Bool :=
  2 ≤ n && ((List.range n).all fun d => d < 2 || n % d != 0)

/-- The first `k` prime numbers (the 64th prime is 311, inside the range). -/
def firstPrimes (k : Nat) : List Nat := ((List.range 312).filter isPrime).take k

/-- Bisection step for the integer cube root: keeps `lo ^ 3 ≤ n < hi ^ 3`. -/
def icbrtGo (n : Nat) : Nat → Nat → Nat → Nat
  | 0, lo, _ => lo
  | fuel + 1, lo, hi =>
    if lo + 1 < hi then
      let mid := (lo + hi) / 2
      if mid ^ 3 ≤ n then icbrtGo n fuel mid hi else icbrtGo n fuel lo mid
    else lo

/-- Integer cube root (fuel-bounded bisection). -/
def icbrt (n : Nat) : Nat := icbrtGo n 200 0 (n + 1)

/-- The 64 SHA-256 round constants (FIPS 180-4): the first 32 bits of the
fractional parts of the cube roots of the first 64 primes. -/
def sha256K : List Nat :=
  (firstPrimes 64).map fun p => icbrt (p * 2 ^ 96) % 2 ^ 32

/-- The SHA-256 initial hash value (FIPS 180-4): the first 32 bits of the
fractional parts of the square roots of the first 8 primes. -/
def sha256H0 : List Nat :=
  (firstPrimes 8).map fun p => Nat.sqrt (p * 2 ^ 64) % 2 ^ 32

/-- `toBytesBE k x`: the `k` low-order bytes of `x`, big-endian. -/
def toBytesBE : Nat → Nat → List Nat
  | 0, _ => []
  | k + 1, x => toBytesBE k (x >>> 8) ++ [x % 256]

/-- Assemble a big-endian word from bytes. -/
def wordOfBytesBE (bs : List Nat) : Nat := bs.foldl (fun a b => a * 256 + b) 0

/-- Split a byte list into chunks of `n` bytes (fuel-driven recursion). -/
def chunksGo (n : Nat) : Nat → List Nat → List (List Nat)
  | 0, _ => []
  | _, [] => []
  | fuel + 1, l => l.take n :: chunksGo n fuel (l.drop n)

/-- Split a byte list into chunks of `n` bytes. -/
def chunksOf (n : Nat) (l : List Nat) : List (List Nat) := chunksGo n l.length l

/-- SHA-256 message padding: append `0x80`, zero bytes to 56 mod 64, then the
bit length as an 8-byte big-endian integer. -/
def sha256pad (msg : List Nat) : List Nat :=
  let l := msg.length
  let k := (120 - ((l + 1) % 64)) % 64
  msg ++ 128 :: (List.replicate k 0 ++ toBytesBE 8 (l * 8))

/-- The eight SHA-256 working variables. -/
structure Sha256State where
  a : Nat
  b : Nat
  c : Nat
  d : Nat
  e : Nat
  f : Nat
  g : Nat
  h : Nat

/-- Extend the (reversed, newest-first) message-schedule word list `k` times. -/
def scheduleRev : Nat → List Nat → List Nat
  | 0, rev => rev
  | k + 1, rev =>
    scheduleRev k
      (add32 (add32 (smallSigma1 (rev.getD 1 0)) (rev.getD 6 0))
        (add32 (smallSigma0 (rev.getD 14 0)) (rev.getD 15 0)) :: rev)

/-- The 64-word message schedule of one 64-byte block. -/
def messageSchedule (block : List Nat) : List Nat :=
  (scheduleRev 48 (((chunksOf 4 block).map wordOfBytesBE).reverse)).reverse

/-- One SHA-256 compression round. -/
def shaRound (k w : Nat) (s : Sha256State) : Sha256State :=
  let ch := (s.e &&& s.f) ^^^ (not32 s.e &&& s.g)
  let temp1 := add32 (add32 (add32 (add32 s.h (bigSigma1 s.e)) ch) k) w
  let maj := (s.a &&& s.b) ^^^ ((s.a &&& s.c) ^^^ (s.b &&& s.c))
  let temp2 := add32 (bigSigma0 s.a) maj
  { a := add32 temp1 temp2, b := s.a, c := s.b, d := s.c,
    e := add32 s.d temp1, f := s.e, g := s.f, h := s.g }

/-- Compress one 64-byte block into the running hash value. -/
def compressBlock (H block : List Nat) : List Nat :=
  let w := messageSchedule block
  let s0 : Sha256State :=
    ⟨H.getD 0 0, H.getD 1 0, H.getD 2 0, H.getD 3 0,
      H.getD 4 0, H.getD 5 0, H.getD 6 0, H.getD 7 0⟩
  let s := (List.range 64).foldl
    (fun st t => shaRound (sha256K.getD t 0) (w.getD t 0) st) s0
  [add32 (H.getD 0 0) s.a, add32 (H.getD 1 0) s.b,
   add32 (H.getD 2 0) s.c, add32 (H.getD 3 0) s.d,
   add32 (H.getD 4 0) s.e, add32 (H.getD 5 0) s.f,
   add32 (H.getD 6 0) s.g, add32 (H.getD 7 0) s.h]

/-- The SHA-256 digest of a byte list, as eight 32-bit words. -/
def sha256Words (msg : List Nat) : List Nat :=
  (chunksOf 64 (sha256pad msg)).foldl compressBlock sha256H0

/-- Lowercase hexadecimal digit. -/
def hexDigit (n : Nat) : Char :=
  if n < 10 then Char.ofNat (48 + n) else Char.ofNat (87 + n)

/-- The eight lowercase hex digits of a 32-bit word. -/
def wordHex (w : Nat) : List Char :=
  (List.range 8).map (fun i => hexDigit ((w >>> (28 - 4 * i)) &&& 15))

/-- The lowercase hex rendering of the SHA-256 digest of a byte list; this is
what `fmt.Sprintf("%x", hasher.Sum(nil))` returns in the source. -/
def sha256Hex (msg : List Nat) : String := String.mk ((sha256Words msg).flatMap wordHex)

/-! ## Byte encoding of Go strings -/

/-- UTF-8 encoding of one code point, mirroring the bytes of a Go string. -/
def utf8Bytes (c : Char) : List Nat :=
  let n := c.toNat
  if n < 128 then [n]
  else if n < 2048 then [192 ||| (n >>> 6), 128 ||| (n &&& 63)]
  else if n < 65536 then
    [224 ||| (n >>> 12), 128 ||| ((n >>> 6) &&& 63), 128 ||| (n &&& 63)]
  else
    [240 ||| (n >>> 18), 128 ||| ((n >>> 12) &&& 63),
     128 ||| ((n >>> 6) &&& 63), 128 ||| (n &&& 63)]

/-- The UTF-8 bytes of a character list (`[]byte` of a Go string). -/
def byteStr (l : List Char) : List Nat := l.flatMap utf8Bytes

/-- The characters of `strings.Join(l, "\n")`: the elements' characters with a
single newline between consecutive elements. -/
def sepJoin : List String → List Char
  | [] => []
  | [s] => s.data
  | s :: s2 :: rest => s.data ++ '\n' :: sepJoin (s2 :: rest)

/-! ## `BuilderFactory` (package `container`) -/

/-- One regular file under the build-context directory: its name and its byte
content as read by `os.ReadFile`. -/
structure ContextFile where
  path : String
  content : List Nat
deriving DecidableEq

/-- Byte-wise lexicographic order on byte lists (the order `sort.Strings`
gives file names in Go). -/
def bytesLt : List Nat → List Nat → Bool
  | [], [] => false
  | [], _ :: _ => true
  | _ :: _, [] => false
  | x :: xs, y :: ys => if x < y then true else if y < x then false else bytesLt xs ys

/-- Byte-wise lexicographic order on strings. -/
def strLt (a b : String) : Bool := bytesLt (byteStr a.data) (byteStr b.data)

/-- Insert a file into a name-sorted list (insertion step of `walkOrder`). -/
def insertFile (e : ContextFile) : List ContextFile → List ContextFile
  | [] => [e]
  | f :: rest => if strLt e.path f.path then e :: f :: rest else f :: insertFile e rest

/-- The deterministic order in which `filepath.Walk` visits the (non-directory)
entries of the build context: sorted by file name. -/
def walkOrder (l : List ContextFile) : List ContextFile := l.foldr insertFile []

/-- The `BuilderFactory` struct. The Go struct stores the build context as a
directory path plus a Docker client; the model inlines the directory's file
contents and replaces the client by call oracles in the environments below. -/
structure BuilderFactory where
  imageNameFrom : String
  imageNameTo : String
  dockerFileInstructions : List String
  buildContext : List ContextFile

/-- `NewBuilderFactory` (happy path: client construction and context-directory
creation, both environment-side, succeed): the instruction list starts as the
single `FROM` instruction and no destination image name is recorded. -/
def NewBuilderFactory (imageName : String) (buildContext : List ContextFile) :
    BuilderFactory :=
  { imageNameFrom := imageName, imageNameTo := "",
    dockerFileInstructions := ["FROM " ++ imageName], buildContext := buildContext }

/-- `ExecuteCmdInBuilder`: appends a `RUN` instruction (the Go method returns
`("", nil)`; its state effect is the append). -/
def BuilderFactory.ExecuteCmdInBuilder (f : BuilderFactory) (command : List String) :
    BuilderFactory :=
  { f with dockerFileInstructions :=
      f.dockerFileInstructions ++ ["RUN " ++ String.intercalate " " command] }

/-- `AddToBuilder`: appends an `ADD --chown=` instruction. -/
def BuilderFactory.AddToBuilder (f : BuilderFactory) (srcPath destPath chown : String) :
    BuilderFactory :=
  { f with dockerFileInstructions :=
      f.dockerFileInstructions ++
        ["ADD --chown=" ++ chown ++ " " ++ srcPath ++ " " ++ destPath] }

/-- `SetEnvVar`: appends an `ENV` instruction. -/
def BuilderFactory.SetEnvVar (f : BuilderFactory) (name value : String) :
    BuilderFactory :=
  { f with dockerFileInstructions :=
      f.dockerFileInstructions ++ ["ENV " ++ name ++ "=" ++ value] }

/-- `SetUser`: appends a `USER` instruction. -/
def BuilderFactory.SetUser (f : BuilderFactory) (user : String) : BuilderFactory :=
  { f with dockerFileInstructions := f.dockerFileInstructions ++ ["USER " ++ user] }

/-- One recorded modification call on a factory. -/
inductive BuildOp where
  | executeCmd (command : List String)
  | addFile (srcPath destPath chown : String)
  | setEnvVar (name value : String)
  | setUser (user : String)

/-- Apply one modification call. -/
def applyOp (f : BuilderFactory) : BuildOp → BuilderFactory
  | .executeCmd command => f.ExecuteCmdInBuilder command
  | .addFile src dst chown => f.AddToBuilder src dst chown
  | .setEnvVar name value => f.SetEnvVar name value
  | .setUser user => f.SetUser user

/-- Apply a sequence of modification calls in order. -/
def applyOps (f : BuilderFactory) (ops : List BuildOp) : BuilderFactory :=
  ops.foldl applyOp f

/-- `Changed`: true iff the instruction list holds more than the initial `FROM`
instruction. -/
def BuilderFactory.Changed (f : BuilderFactory) : Bool :=
  decide (1 < f.dockerFileInstructions.length)

/-- The Dockerfile text `strings.Join(f.dockerFileInstructions, "\n")`. -/
def dockerFileContent (f : BuilderFactory) : String :=
  String.mk (sepJoin f.dockerFileInstructions)

/-- The byte stream `GenerateImageHash` feeds to SHA-256: the UTF-8 bytes of
the newline-joined instruction text, followed by the raw bytes of every
regular file under the build context in walk order (file names and boundaries
are not written to the hasher). -/
def hashInput (f : BuilderFactory) : List Nat :=
  byteStr (sepJoin f.dockerFileInstructions) ++
    (walkOrder f.buildContext).flatMap ContextFile.content

/-- `GenerateImageHash`: the hex SHA-256 digest of `hashInput`. In-memory file
reads cannot fail, so the Go error returns (`ErrReadingFile`,
`ErrHashingBuildContext`, …) are unreachable in the model and the result is
the hash itself. -/
def BuilderFactory.GenerateImageHash (f : BuilderFactory) : String :=
  sha256Hex (hashInput f)

/-! ## `PushBuilderImage` -/

/-- Errors of the push path. -/
inductive BuildError where
  | failedToCreateContextDir
  | failedToWriteDockerfile
  | buildFailed
deriving DecidableEq

/-- Remote/filesystem calls the push path can make: writing the Dockerfile
manifest into the build context, and invoking the builder's `Build` (which in
Docker also pushes to the destination, i.e. the registry interaction). -/
inductive BuildEvent where
  | writeDockerfile (content : String)
  | build (destination : String)
deriving DecidableEq

/-- Outcome oracles for the push path's external calls. -/
structure PushEnv where
  writeOk : Bool
  buildOk : Bool

/-- `PushBuilderImage`: returns immediately when `Changed` is false; otherwise
records the destination name, writes the newline-joined instructions as the
Dockerfile into the build context, and invokes the builder. The returned
event list is chronological. -/
def BuilderFactory.PushBuilderImage (env : PushEnv) (f : BuilderFactory)
    (imageName : String) : Option BuildError × BuilderFactory × List BuildEvent :=
  if !f.Changed then (none, f, [])
  else
    let f2 := { f with imageNameTo := imageName }
    if env.writeOk = false then
      (some .failedToWriteDockerfile, f2, [.writeDockerfile (dockerFileContent f)])
    else if env.buildOk = false then
      (some .buildFailed, f2,
        [.writeDockerfile (dockerFileContent f), .build imageName])
    else
      (none, f2, [.writeDockerfile (dockerFileContent f), .build imageName])

/-! ## `ReadFileFromBuilder` -/

/-- A tar header type flag; the source only distinguishes `tar.TypeReg`. -/
inductive TarTypeflag where
  | reg
  | dir
  | other
deriving DecidableEq

/-- One entry of the archive stream returned by `CopyFromContainer`: its header
name, type flag, body bytes, and whether `io.ReadAll` of the body succeeds. -/
structure TarEntry where
  name : String
  typeflag : TarTypeflag
  content : List Nat
  readOk : Bool

/-- How the archive stream terminates after its well-formed entries: a clean
end-of-archive, or a header-read failure. -/
inductive TarEnd where
  | eof
  | corrupt
deriving DecidableEq

/-- Oracles for `ReadFileFromBuilder`'s external calls, including the archive
stream the daemon returns for the requested path. -/
structure ReadEnv where
  createOk : Bool
  startOk : Bool
  copyOk : Bool
  archive : List TarEntry
  archiveEnd : TarEnd

/-- Container-daemon calls made by `ReadFileFromBuilder`, in order. -/
inductive ReadEvent where
  | containerCreate
  | containerStart
  | copyFromContainer
  | containerStop
  | containerRemove
deriving DecidableEq

/-- Errors of `ReadFileFromBuilder`, mirroring the package's error values. -/
inductive ReadError where
  | noImageNameProvided
  | failedToCreateContainer
  | failedToStartContainer
  | failedToCopyFileFromContainer
  | failedToReadFromTar
  | failedToReadFileFromTar
  | fileNotFoundInTar
deriving DecidableEq

/-- The tar-scanning loop of `ReadFileFromBuilder`: headers are read in order;
the first regular-file entry's body is returned (header names are never
compared with anything); exhausting the stream yields `fileNotFoundInTar` on a
clean end-of-archive and `failedToReadFromTar` on a header-read failure. -/
def scanTar : List TarEntry → TarEnd → Except ReadError (List Nat)
  | [], .eof => .error .fileNotFoundInTar
  | [], .corrupt => .error .failedToReadFromTar
  | e :: rest, fin =>
    if e.typeflag = .reg then
      if e.readOk then .ok e.content else .error .failedToReadFileFromTar
    else scanTar rest fin

/-- `ReadFileFromBuilder`: without a recorded destination image name it fails
immediately; otherwise it creates and starts a throwaway container from that
image, copies the requested path out as an archive stream and scans it. The
deferred stop/remove of the container runs on every exit path after a
successful create (the daemon's archive for `filePath` is supplied by
`env.archive`; the Go code passes `filePath` to `CopyFromContainer` and never
inspects entry names). -/
def BuilderFactory.ReadFileFromBuilder (env : ReadEnv) (f : BuilderFactory)
    (filePath : String) : Except ReadError (List Nat) × List ReadEvent :=
  if f.imageNameTo = "" then (.error .noImageNameProvided, [])
  else if env.createOk = false then (.error .failedToCreateContainer, [.containerCreate])
  else if env.startOk = false then
    (.error .failedToStartContainer,
      [.containerCreate, .containerStart, .containerStop, .containerRemove])
  else if env.copyOk = false then
    (.error .failedToCopyFileFromContainer,
      [.containerCreate, .containerStart, .copyFromContainer,
       .containerStop, .containerRemove])
  else
    (scanTar env.archive env.archiveEnd,
      [.containerCreate, .containerStart, .copyFromContainer,
       .containerStop, .containerRemove])

/-- The final component of a slash-separated path (the name a daemon archive
uses for the copied file): the characters after the last slash. -/
def baseName (p : String) : String :=
  String.mk (p.data.foldl (fun acc c => if c = '/' then [] else acc ++ [c]) [])

/-- Whether a tar entry's header name refers to the requested path: literal
equality or equality with the path's final component. -/
def tarEntryMatches (e : TarEntry) (path : String) : Bool :=
  e.name = path || e.name = baseName path

/-! ## `Instance.Destroy` and `BatchDestroy` (package `knuu`) -/

/-- The instance lifecycle states (spec 4.1). -/
inductive InstanceState where
  | None
  | Committed
  | Started
  | Stopped
  | Destroyed
deriving DecidableEq, Fintype

/-- Modelled from the spec: the state's `String()` rendering used by
`ErrDestroyingNotAllowed.WithParams(i.state.String())` (the state type and its
renderer live outside the provided sources); each state renders as its name. -/
def InstanceState.toString : InstanceState → String
  | .None => "None"
  | .Committed => "Committed"
  | .Started => "Started"
  | .Stopped => "Stopped"
  | .Destroyed => "Destroyed"

/-- An `Instance`: its Kubernetes name, lifecycle state and owned sidecars
(the further configuration fields play no part in `Destroy`). -/
inductive Instance where
  | mk (k8sName : String) (state : InstanceState) (sidecars : List Instance)

/-- The instance's Kubernetes name. -/
def Instance.k8sName : Instance → String
  | .mk n _ _ => n

/-- The instance's lifecycle state. -/
def Instance.state : Instance → InstanceState
  | .mk _ s _ => s

/-- The instance's sidecars. -/
def Instance.sidecars : Instance → List Instance
  | .mk _ _ sc => sc

/-- Replace an instance's own state. -/
def Instance.withState (s : InstanceState) : Instance → Instance
  | .mk n _ sc => .mk n s sc

/-- Modelled from the spec: `setStateForSidecars(sidecars, state)` (defined
outside the provided sources) propagates the terminal state to all sidecars:
each sidecar's state is set to the given state. -/
def setStateForSidecars (l : List Instance) (s : InstanceState) : List Instance :=
  l.map (Instance.withState s)

/-- Outcome oracles for the remote deletions `Destroy` performs, keyed by the
target's Kubernetes name. -/
structure DestroyEnv where
  destroyPodOk : String → Bool
  destroyResourcesOk : String → Bool

/-- The errors `Destroy` returns, each carrying the parameter the Go error's
`WithParams` records. -/
inductive DestroyError where
  | destroyingNotAllowed (state : String)
  | destroyingPod (name : String)
  | destroyingResourcesForInstance (name : String)
  | destroyingResourcesForSidecars (name : String)
deriving DecidableEq

/-- Remote deletions and state flips performed during a `Destroy` call, in
chronological order. -/
inductive DestroyEvent where
  | destroyPod (name : String)
  | destroyResources (name : String)
  | sidecarDestroyResources (name : String)
  | markDestroyed (name : String)
deriving DecidableEq

/-- The outcome of one `Destroy` call: the returned error (`none` = `nil`),
the instance afterwards (unchanged unless the call reached the final state
flip), and the chronological list of remote deletions and state flips. -/
structure DestroyResult where
  err : Option DestroyError
  inst : Instance
  trace : List DestroyEvent

/-- Modelled from the spec: `applyFunctionToInstances` (defined outside the
provided sources) applies the function to each instance in list order,
stopping at the first error (fail-fast partial cascade, the reading the spec
fixes). Specialized to the sidecar `destroyResources` closure of `Destroy`;
returns the name of the first failing sidecar, if any, and the attempted
deletions. -/
def sidecarResourcesCascade (env : DestroyEnv) :
    List Instance → Option String × List DestroyEvent
  | [] => (none, [])
  | s :: rest =>
    if env.destroyResourcesOk s.k8sName then
      let r := sidecarResourcesCascade env rest
      (r.1, .sidecarDestroyResources s.k8sName :: r.2)
    else (some s.k8sName, [.sidecarDestroyResources s.k8sName])

/-- `Instance.Destroy`: an already-Destroyed instance is a successful no-op;
a state other than Started/Stopped/Destroyed is rejected with a state-named
error; otherwise the Pod is deleted, then the instance's other resources,
then each sidecar's resources in order (fail-fast), and only after all of
that succeeds are the instance and its sidecars marked `Destroyed`. -/
def Instance.Destroy (env : DestroyEnv) (i : Instance) : DestroyResult :=
  if i.state = .Destroyed then ⟨none, i, []⟩
  else if ¬(i.state = .Started ∨ i.state = .Stopped ∨ i.state = .Destroyed) then
    ⟨some (.destroyingNotAllowed i.state.toString), i, []⟩
  else if env.destroyPodOk i.k8sName = false then
    ⟨some (.destroyingPod i.k8sName), i, [.destroyPod i.k8sName]⟩
  else if env.destroyResourcesOk i.k8sName = false then
    ⟨some (.destroyingResourcesForInstance i.k8sName), i,
      [.destroyPod i.k8sName, .destroyResources i.k8sName]⟩
  else
    match sidecarResourcesCascade env i.sidecars with
    | (some _, t) =>
      ⟨some (.destroyingResourcesForSidecars i.k8sName), i,
        .destroyPod i.k8sName :: .destroyResources i.k8sName :: t⟩
    | (none, t) =>
      ⟨none, .mk i.k8sName .Destroyed (setStateForSidecars i.sidecars .Destroyed),
        .destroyPod i.k8sName :: .destroyResources i.k8sName ::
          (t ++ DestroyEvent.markDestroyed i.k8sName ::
            (i.sidecars.map fun s => DestroyEvent.markDestroyed s.k8sName))⟩

/-- The full canonical event order of a completed `Destroy` call: Pod
deletion, resource deletion, the sidecar cascade in sidecar order, then the
state flips (parent first). -/
def canonicalDestroyTrace (i : Instance) : List DestroyEvent :=
  .destroyPod i.k8sName :: .destroyResources i.k8sName ::
    ((i.sidecars.map fun s => DestroyEvent.sidecarDestroyResources s.k8sName) ++
      DestroyEvent.markDestroyed i.k8sName ::
        (i.sidecars.map fun s => DestroyEvent.markDestroyed s.k8sName))

/-- `BatchDestroy`'s loop over the (possibly nil) instance arguments: nil
entries are skipped, each instance is destroyed in order, and the first error
aborts the batch. Returns the error, the instances afterwards, and the
concatenated destroy traces of the calls made. -/
def batchDestroyGo (env : DestroyEnv) :
    List (Option Instance) → Option DestroyError × List (Option Instance) × List DestroyEvent
  | [] => (none, [], [])
  | none :: rest =>
    let r := batchDestroyGo env rest
    (r.1, none :: r.2.1, r.2.2)
  | some i :: rest =>
    let d := i.Destroy env
    match d.err with
    | some e => (some e, some d.inst :: rest, d.trace)
    | none =>
      let r := batchDestroyGo env rest
      (r.1, some d.inst :: r.2.1, d.trace ++ r.2.2)

/-- `BatchDestroy`: when the `KNUU_SKIP_CLEANUP` toggle is `"true"` the whole
batch is skipped and `nil` returned; otherwise the loop above runs. -/
def BatchDestroy (env : DestroyEnv) (skipCleanup : Bool)
    (instances : List (Option Instance)) :
    Option DestroyError × List (Option Instance) × List DestroyEvent :=
  if skipCleanup then (none, instances, []) else batchDestroyGo env instances

/-- The concatenated traces of destroying each non-nil instance of a list
independently, in order. -/
def destroyTraces (env : DestroyEnv) (l : List (Option Instance)) : List DestroyEvent :=
  l.flatMap fun o =>
    match o with
    | none => []
    | some i => (i.Destroy env).trace

/-! ## Helper lemmas -/

/-- `sepJoin` on a cons with a nonempty tail inserts one newline. -/
theorem sepJoin_cons (p : String) (l : List String) (h : l ≠ []) :
    sepJoin (p :: l) = p.data ++ '\n' :: sepJoin l := by
  cases l with
  | nil => exact absurd rfl h
  | cons a as => rfl

/-- `byteStr` distributes over append. -/
theorem byteStr_append (a b : List Char) : byteStr (a ++ b) = byteStr a ++ byteStr b := by
  simp [byteStr]

/-- Inserting one instruction anywhere into a nonempty instruction list grows
the byte length of the newline-joined text by the instruction's byte length
plus one (for the separator). -/
theorem byteStr_cons (c : Char) (l : List Char) :
    byteStr (c :: l) = utf8Bytes c ++ byteStr l := by
  simp [byteStr]

theorem sepJoin_insert_length (x : String) :
    ∀ pre post : List String, pre ++ post ≠ [] →
      (byteStr (sepJoin (pre ++ x :: post))).length =
        (byteStr (sepJoin (pre ++ post))).length + (byteStr x.data).length + 1 := by
  have h10 : (utf8Bytes '\n').length = 1 := rfl
  intro pre
  induction pre with
  | nil =>
    intro post h
    cases post with
    | nil => exact absurd rfl h
    | cons a as =>
      rw [List.nil_append, List.nil_append, sepJoin_cons x (a :: as) (by simp),
        byteStr_append, byteStr_cons, List.length_append, List.length_append, h10]
      omega
  | cons p pre ih =>
    intro post _
    rw [List.cons_append, List.cons_append,
      sepJoin_cons p (pre ++ x :: post) (by simp), byteStr_append, byteStr_cons,
      List.length_append, List.length_append, h10]
    by_cases hpp : pre ++ post = []
    · rcases List.append_eq_nil.mp hpp with ⟨h1, h2⟩
      subst h1; subst h2
      simp only [List.nil_append, List.append_nil]
      rw [show sepJoin [x] = x.data from rfl, show sepJoin [p] = p.data from rfl]
      omega
    · rw [sepJoin_cons p (pre ++ post) hpp, byteStr_append, byteStr_cons,
        List.length_append, List.length_append, h10, ih post hpp]
      omega

/-- Setting an instance's state leaves its name and sets its state. -/
theorem withState_state (s : InstanceState) (i : Instance) :
    (Instance.withState s i).state = s := by
  cases i; rfl

/-- The sidecar cascade succeeds iff every sidecar's resource deletion
succeeds. -/
theorem cascade_ok_iff (env : DestroyEnv) (l : List Instance) :
    (sidecarResourcesCascade env l).1 = none ↔
      ∀ s ∈ l, env.destroyResourcesOk s.k8sName = true := by
  induction l with
  | nil => simp [sidecarResourcesCascade]
  | cons s rest ih =>
    by_cases h : env.destroyResourcesOk s.k8sName
    · simp [sidecarResourcesCascade, h, ih]
    · simp [sidecarResourcesCascade, h]

/-- A successful cascade attempts exactly one resource deletion per sidecar,
in sidecar order. -/
theorem cascade_ok_trace (env : DestroyEnv) (l : List Instance)
    (h : (sidecarResourcesCascade env l).1 = none) :
    (sidecarResourcesCascade env l).2 =
      l.map fun s => DestroyEvent.sidecarDestroyResources s.k8sName := by
  induction l with
  | nil => rfl
  | cons s rest ih =>
    by_cases hs : env.destroyResourcesOk s.k8sName
    · simp [sidecarResourcesCascade, hs] at h ⊢
      exact ih h
    · simp [sidecarResourcesCascade, hs] at h

/-- The cascade's attempted deletions are an initial segment of the full
per-sidecar deletion sequence. -/
theorem cascade_trace_init (env : DestroyEnv) (l : List Instance) :
    ∃ t, (l.map fun s => DestroyEvent.sidecarDestroyResources s.k8sName) =
      (sidecarResourcesCascade env l).2 ++ t := by
  induction l with
  | nil => exact ⟨[], rfl⟩
  | cons s rest ih =>
    by_cases hs : env.destroyResourcesOk s.k8sName
    · obtain ⟨t, ht⟩ := ih
      exact ⟨t, by simp [sidecarResourcesCascade, hs, ht]⟩
    · exact ⟨rest.map fun s => DestroyEvent.sidecarDestroyResources s.k8sName,
        by simp [sidecarResourcesCascade, hs]⟩

/-- Every event the cascade emits is a sidecar resource deletion. -/
theorem cascade_events (env : DestroyEnv) (l : List Instance) :
    ∀ e ∈ (sidecarResourcesCascade env l).2,
      ∃ n, e = DestroyEvent.sidecarDestroyResources n := by
  induction l with
  | nil => simp [sidecarResourcesCascade]
  | cons s rest ih =>
    by_cases hs : env.destroyResourcesOk s.k8sName
    · intro e he
      simp [sidecarResourcesCascade, hs] at he
      rcases he with he | he
      · exact ⟨s.k8sName, he⟩
      · exact ih e he
    · intro e he
      simp [sidecarResourcesCascade, hs] at he
      exact ⟨s.k8sName, he⟩

/-- `Destroy` on an already-Destroyed instance: successful no-op. -/
theorem destroy_destroyed (env : DestroyEnv) (i : Instance) (h : i.state = .Destroyed) :
    i.Destroy env = ⟨none, i, []⟩ := by
  simp [Instance.Destroy, h]

/-- `Destroy` from a non-permitted state: state-named error, nothing touched. -/
theorem destroy_notAllowed (env : DestroyEnv) (i : Instance)
    (h1 : i.state ≠ .Started) (h2 : i.state ≠ .Stopped) (h3 : i.state ≠ .Destroyed) :
    i.Destroy env = ⟨some (.destroyingNotAllowed i.state.toString), i, []⟩ := by
  simp [Instance.Destroy, h1, h2, h3]

/-- `Destroy` when the Pod deletion fails. -/
theorem destroy_pod_fail (env : DestroyEnv) (i : Instance)
    (hst : i.state = .Started ∨ i.state = .Stopped)
    (hp : env.destroyPodOk i.k8sName = false) :
    i.Destroy env = ⟨some (.destroyingPod i.k8sName), i, [.destroyPod i.k8sName]⟩ := by
  rcases hst with h | h <;> simp [Instance.Destroy, h, hp]

/-- `Destroy` when the instance's own resource deletion fails. -/
theorem destroy_res_fail (env : DestroyEnv) (i : Instance)
    (hst : i.state = .Started ∨ i.state = .Stopped)
    (hp : env.destroyPodOk i.k8sName = true)
    (hr : env.destroyResourcesOk i.k8sName = false) :
    i.Destroy env = ⟨some (.destroyingResourcesForInstance i.k8sName), i,
      [.destroyPod i.k8sName, .destroyResources i.k8sName]⟩ := by
  rcases hst with h | h <;> simp [Instance.Destroy, h, hp, hr]

/-- `Destroy` when a sidecar's resource deletion fails. -/
theorem destroy_sidecar_fail (env : DestroyEnv) (i : Instance) (n : String)
    (t : List DestroyEvent) (hst : i.state = .Started ∨ i.state = .Stopped)
    (hp : env.destroyPodOk i.k8sName = true)
    (hr : env.destroyResourcesOk i.k8sName = true)
    (hcas : sidecarResourcesCascade env i.sidecars = (some n, t)) :
    i.Destroy env = ⟨some (.destroyingResourcesForSidecars i.k8sName), i,
      .destroyPod i.k8sName :: .destroyResources i.k8sName :: t⟩ := by
  rcases hst with h | h <;> simp [Instance.Destroy, h, hp, hr, hcas]

/-- `Destroy` when every step succeeds. -/
theorem destroy_success_eq (env : DestroyEnv) (i : Instance) (t : List DestroyEvent)
    (hst : i.state = .Started ∨ i.state = .Stopped)
    (hp : env.destroyPodOk i.k8sName = true)
    (hr : env.destroyResourcesOk i.k8sName = true)
    (hcas : sidecarResourcesCascade env i.sidecars = (none, t)) :
    i.Destroy env =
      ⟨none, .mk i.k8sName .Destroyed (setStateForSidecars i.sidecars .Destroyed),
        .destroyPod i.k8sName :: .destroyResources i.k8sName ::
          (t ++ DestroyEvent.markDestroyed i.k8sName ::
            (i.sidecars.map fun s => DestroyEvent.markDestroyed s.k8sName))⟩ := by
  rcases hst with h | h <;> simp [Instance.Destroy, h, hp, hr, hcas]

/-! ## C1: determinism of `GenerateImageHash` -/

/-- C1: `GenerateImageHash` is deterministic — it is a pure function, so two
calls on one unmodified factory agree, and any two factories (independently
constructed, all other fields free) with equal instruction lists and
build-context directories holding the same files with the same byte contents
hash to the identical string. -/
theorem GenerateImageHash_deterministic (f1 f2 : BuilderFactory)
    (hins : f1.dockerFileInstructions = f2.dockerFileInstructions)
    (hctx : walkOrder f1.buildContext = walkOrder f2.buildContext) :
    f1.GenerateImageHash = f2.GenerateImageHash := by
  unfold BuilderFactory.GenerateImageHash hashInput
  rw [hins, hctx]

/-- A factory as a test would build it: committed instructions, no push yet,
two context files. -/
def detFactoryA : BuilderFactory :=
  { imageNameFrom := "alpine", imageNameTo := "",
    dockerFileInstructions := ["FROM alpine", "RUN echo hi"],
    buildContext := [⟨"a.txt", [1, 2, 3]⟩, ⟨"b.txt", [4]⟩] }

/-- An independently constructed factory: same instructions, same context
files listed in a different order, different unrelated fields. -/
def detFactoryB : BuilderFactory :=
  { imageNameFrom := "alpine", imageNameTo := "ttl.sh/cached",
    dockerFileInstructions := ["FROM alpine", "RUN echo hi"],
    buildContext := [⟨"b.txt", [4]⟩, ⟨"a.txt", [1, 2, 3]⟩] }

/-- Witness for C1 at two concrete independently constructed factories. -/
theorem GenerateImageHash_deterministic_witness :
    detFactoryA.GenerateImageHash = detFactoryB.GenerateImageHash :=
  GenerateImageHash_deterministic detFactoryA detFactoryB (by decide) (by decide)

/-! ## C4: sensitivity of `GenerateImageHash` -/

/-- A factory whose second and third instructions glue ambiguously around the
newline separator. -/
def reorderFactoryA : BuilderFactory :=
  { imageNameFrom := "img", imageNameTo := "",
    dockerFileInstructions := ["FROM img", "RUN a", "RUN a\nRUN a"],
    buildContext := [] }

/-- The same factory with its second and third (distinct) instructions
swapped. -/
def reorderFactoryB : BuilderFactory :=
  { imageNameFrom := "img", imageNameTo := "",
    dockerFileInstructions := ["FROM img", "RUN a\nRUN a", "RUN a"],
    buildContext := [] }

/-- Counterexample to C4 as stated: swapping two distinct instructions (a
reordering of the instruction list) can leave the newline-joined Dockerfile
text — and therefore the hash — unchanged, because instruction boundaries are
not framed: both lists join to `"FROM img\nRUN a\nRUN a\nRUN a"`. -/
theorem GenerateImageHash_reorder_collision :
    reorderFactoryA.dockerFileInstructions ≠ reorderFactoryB.dockerFileInstructions ∧
    reorderFactoryA.dockerFileInstructions.Perm reorderFactoryB.dockerFileInstructions ∧
    reorderFactoryA.GenerateImageHash = reorderFactoryB.GenerateImageHash :=
  ⟨by decide, .cons _ (.swap _ _ _), congrArg sha256Hex (by decide)⟩

/-- C4 amended: changing any single byte of any one context file (all other
files and the instructions unchanged) changes the byte stream fed to SHA-256,
and adding or removing any one instruction does too (hence the hash changes
whenever those streams do not collide under SHA-256); reordering instructions,
however, only changes the stream when it changes the newline-joined
instruction text (see the counterexample). -/
theorem generateImageHash_sensitivity :
    (∀ (f1 f2 : BuilderFactory) (pre post : List ContextFile) (p : String)
      (c1 c2 : List Nat),
      f1.dockerFileInstructions = f2.dockerFileInstructions →
      walkOrder f1.buildContext = pre ++ ⟨p, c1⟩ :: post →
      walkOrder f2.buildContext = pre ++ ⟨p, c2⟩ :: post →
      c1 ≠ c2 → hashInput f1 ≠ hashInput f2) ∧
    (∀ (f1 f2 : BuilderFactory) (pre post : List String) (x : String),
      f1.buildContext = f2.buildContext →
      f1.dockerFileInstructions = pre ++ post →
      f2.dockerFileInstructions = pre ++ x :: post →
      pre ++ post ≠ [] → hashInput f1 ≠ hashInput f2) := by
  constructor
  · intro f1 f2 pre post p c1 c2 hins h1 h2 hne h
    apply hne
    unfold hashInput at h
    rw [hins, h1, h2] at h
    have h' := List.append_cancel_left h
    simpa using h'
  · intro f1 f2 pre post x hctx h1 h2 hne h
    have hl := congrArg List.length h
    unfold hashInput at hl
    rw [hctx, h1, h2, List.length_append, List.length_append] at hl
    have hg := sepJoin_insert_length x pre post hne
    omega

/-- A one-file factory. -/
def sensFactoryA : BuilderFactory :=
  { imageNameFrom := "img", imageNameTo := "",
    dockerFileInstructions := ["FROM img"], buildContext := [⟨"a", [0, 1]⟩] }

/-- `sensFactoryA` with one byte of its one file changed. -/
def sensFactoryB : BuilderFactory :=
  { imageNameFrom := "img", imageNameTo := "",
    dockerFileInstructions := ["FROM img"], buildContext := [⟨"a", [0, 2]⟩] }

/-- `sensFactoryA` without its file and with one added instruction. -/
def sensFactoryC : BuilderFactory :=
  { imageNameFrom := "img", imageNameTo := "",
    dockerFileInstructions := ["FROM img", "RUN a"], buildContext := [] }

/-- `sensFactoryC` without the added instruction. -/
def sensFactoryD : BuilderFactory :=
  { imageNameFrom := "img", imageNameTo := "",
    dockerFileInstructions := ["FROM img"], buildContext := [] }

/-- Witness for the amended C4: flipping one byte of one context file, and
separately adding one instruction, each change the hash input at concrete
factories. -/
theorem generateImageHash_sensitivity_witness :
    hashInput sensFactoryA ≠ hashInput sensFactoryB ∧
    hashInput sensFactoryD ≠ hashInput sensFactoryC :=
  ⟨generateImageHash_sensitivity.1 sensFactoryA sensFactoryB [] [] "a" [0, 1] [0, 2]
      (by decide) (by decide) (by decide) (by decide),
    generateImageHash_sensitivity.2 sensFactoryD sensFactoryC ["FROM img"] [] "RUN a"
      (by decide) (by decide) (by decide) (by decide)⟩

/-! ## C2: cascade completeness of `Destroy` -/

/-- C2: for an instance that is not already Destroyed, a successful `Destroy`
leaves the parent and every sidecar in state `Destroyed`; if any sidecar's
resource deletion fails, `Destroy` returns an error; and on any error the
instance is returned unchanged — so the parent keeps its prior non-Destroyed
state and every sidecar keeps its prior state, in particular any
already-Destroyed sidecar stays `Destroyed`. -/
theorem Destroy_cascade_completeness (env : DestroyEnv) (i : Instance)
    (hND : i.state ≠ .Destroyed) :
    ((i.Destroy env).err = none →
      (i.Destroy env).inst.state = .Destroyed ∧
        ∀ s ∈ (i.Destroy env).inst.sidecars, s.state = .Destroyed) ∧
    ((∃ s ∈ i.sidecars, env.destroyResourcesOk s.k8sName = false) →
      (i.Destroy env).err.isSome = true) ∧
    ((i.Destroy env).err.isSome = true → (i.Destroy env).inst = i) := by
  by_cases hst : i.state = .Started ∨ i.state = .Stopped
  · by_cases hp : env.destroyPodOk i.k8sName = true
    · by_cases hr : env.destroyResourcesOk i.k8sName = true
      · rcases hcas : sidecarResourcesCascade env i.sidecars with ⟨o, t⟩
        cases o with
        | none =>
          rw [destroy_success_eq env i t hst hp hr hcas]
          refine ⟨fun _ => ⟨rfl, ?_⟩, fun hex => ?_, by simp⟩
          · intro s hs
            simp only [Instance.sidecars, setStateForSidecars] at hs
            obtain ⟨s0, _, rfl⟩ := List.mem_map.mp hs
            exact withState_state _ s0
          · obtain ⟨s, hs, hfail⟩ := hex
            have := (cascade_ok_iff env i.sidecars).mp (by rw [hcas]) s hs
            rw [hfail] at this
            exact absurd this (by simp)
        | some n =>
          rw [destroy_sidecar_fail env i n t hst hp hr hcas]
          exact ⟨by simp, fun _ => rfl, fun _ => rfl⟩
      · rw [destroy_res_fail env i hst hp (by simpa using hr)]
        exact ⟨by simp, fun _ => rfl, fun _ => rfl⟩
    · rw [destroy_pod_fail env i hst (by simpa using hp)]
      exact ⟨by simp, fun _ => rfl, fun _ => rfl⟩
  · rw [destroy_notAllowed env i (fun h => hst (Or.inl h)) (fun h => hst (Or.inr h)) hND]
    exact ⟨by simp, fun _ => rfl, fun _ => rfl⟩

/-- A teardown environment in which every remote deletion succeeds. -/
def envAllOk : DestroyEnv := ⟨fun _ => true, fun _ => true⟩

/-- A teardown environment in which only the resource deletion of the sidecar
named `sc2` fails. -/
def envSc2Fails : DestroyEnv := ⟨fun _ => true, fun n => n != "sc2"⟩

/-- A Started parent with two Started sidecars. -/
def parentTwoSidecars : Instance :=
  .mk "parent" .Started [.mk "sc1" .Started [], .mk "sc2" .Started []]

/-- Witness for C2: with all deletions succeeding, parent and both sidecars
end Destroyed; with `sc2`'s deletion failing, an error is returned and the
instance (parent state and both sidecar states) is unchanged. -/
theorem Destroy_cascade_completeness_witness :
    ((parentTwoSidecars.Destroy envAllOk).inst.state = .Destroyed ∧
      ∀ s ∈ (parentTwoSidecars.Destroy envAllOk).inst.sidecars,
        s.state = .Destroyed) ∧
    (parentTwoSidecars.Destroy envSc2Fails).err.isSome = true ∧
    (parentTwoSidecars.Destroy envSc2Fails).inst = parentTwoSidecars :=
  ⟨(Destroy_cascade_completeness envAllOk parentTwoSidecars (by decide)).1 (by decide),
    (Destroy_cascade_completeness envSc2Fails parentTwoSidecars (by decide)).2.1
      ⟨.mk "sc2" .Started [],
        List.mem_cons_of_mem _ (List.mem_cons_self _ _), by decide⟩,
    (Destroy_cascade_completeness envSc2Fails parentTwoSidecars (by decide)).2.2
      (by decide)⟩

/-! ## C3: step ordering within one `Destroy` call -/

/-- C3: from a permitted non-Destroyed state, the remote calls of one
`Destroy` run in the fixed order Pod deletion, resource deletion, sidecar
cascade, state flips: the emitted trace is an initial segment of the
canonical order; it is the whole canonical order exactly on success; on
failure no state flip happens and the instance is unchanged; and a later
step's event in the trace implies every earlier step succeeded. -/
theorem Destroy_ordered (env : DestroyEnv) (i : Instance)
    (hst : i.state = .Started ∨ i.state = .Stopped) :
    (∃ t, canonicalDestroyTrace i = (i.Destroy env).trace ++ t) ∧
    ((i.Destroy env).err = none ↔ (i.Destroy env).trace = canonicalDestroyTrace i) ∧
    ((i.Destroy env).err.isSome = true →
      (i.Destroy env).inst = i ∧
        ∀ n, DestroyEvent.markDestroyed n ∉ (i.Destroy env).trace) ∧
    (DestroyEvent.destroyResources i.k8sName ∈ (i.Destroy env).trace →
      env.destroyPodOk i.k8sName = true) ∧
    (∀ s ∈ i.sidecars,
      DestroyEvent.sidecarDestroyResources s.k8sName ∈ (i.Destroy env).trace →
        env.destroyPodOk i.k8sName = true ∧ env.destroyResourcesOk i.k8sName = true) := by
  by_cases hp : env.destroyPodOk i.k8sName = true
  · by_cases hr : env.destroyResourcesOk i.k8sName = true
    · rcases hcas : sidecarResourcesCascade env i.sidecars with ⟨o, t⟩
      cases o with
      | none =>
        rw [destroy_success_eq env i t hst hp hr hcas]
        have ht : t = i.sidecars.map fun s => DestroyEvent.sidecarDestroyResources s.k8sName := by
          have h0 := cascade_ok_trace env i.sidecars (by rw [hcas])
          rw [hcas] at h0
          exact h0
        refine ⟨⟨[], by simp [canonicalDestroyTrace, ht]⟩,
          ⟨fun _ => by simp [canonicalDestroyTrace, ht], fun _ => rfl⟩,
          by simp, fun _ => hp, fun s _ _ => ⟨hp, hr⟩⟩
      | some n =>
        rw [destroy_sidecar_fail env i n t hst hp hr hcas]
        obtain ⟨t2, ht2⟩ := cascade_trace_init env i.sidecars
        rw [hcas] at ht2
        constructor
        · exact ⟨t2 ++ DestroyEvent.markDestroyed i.k8sName ::
              (i.sidecars.map fun s => DestroyEvent.markDestroyed s.k8sName),
            by simp [canonicalDestroyTrace, ht2]⟩
        refine ⟨⟨fun h => absurd h (by simp), fun hT => ?_⟩, ?_, fun _ => hp, fun s _ _ => ⟨hp, hr⟩⟩
        · exfalso
          have hmem : DestroyEvent.markDestroyed i.k8sName ∈ canonicalDestroyTrace i := by
            simp [canonicalDestroyTrace]
          rw [← hT] at hmem
          simp at hmem
          obtain ⟨m, hm⟩ := cascade_events env i.sidecars _ (by rw [hcas]; exact hmem)
          exact absurd hm (by simp)
        · refine fun _ => ⟨rfl, fun m hmem => ?_⟩
          simp at hmem
          obtain ⟨m2, hm2⟩ := cascade_events env i.sidecars _ (by rw [hcas]; exact hmem)
          exact absurd hm2 (by simp)
    · rw [destroy_res_fail env i hst hp (by simpa using hr)]
      refine ⟨⟨(i.sidecars.map fun s => DestroyEvent.sidecarDestroyResources s.k8sName) ++
            DestroyEvent.markDestroyed i.k8sName ::
              (i.sidecars.map fun s => DestroyEvent.markDestroyed s.k8sName),
          by simp [canonicalDestroyTrace]⟩,
        ⟨fun h => absurd h (by simp), fun hT => ?_⟩, fun _ => ⟨rfl, by simp⟩,
        fun _ => hp, fun s _ hmem => ?_⟩
      · have hl := congrArg List.length hT
        simp [canonicalDestroyTrace] at hl
      · exfalso
        simp at hmem
  · rw [destroy_pod_fail env i hst (by simpa using hp)]
    refine ⟨⟨DestroyEvent.destroyResources i.k8sName ::
          ((i.sidecars.map fun s => DestroyEvent.sidecarDestroyResources s.k8sName) ++
            DestroyEvent.markDestroyed i.k8sName ::
              (i.sidecars.map fun s => DestroyEvent.markDestroyed s.k8sName)),
        by simp [canonicalDestroyTrace]⟩,
      ⟨fun h => absurd h (by simp), fun hT => ?_⟩, fun _ => ⟨rfl, by simp⟩,
      fun hmem => ?_, fun s _ hmem => ?_⟩
    · have hl := congrArg List.length hT
      simp [canonicalDestroyTrace] at hl
    · exfalso; simp at hmem
    · exfalso; simp at hmem

/-- Witness for C3: on the concrete parent, full success emits exactly the
canonical trace; the sidecar failure leaves the instance unchanged with no
state-flip event emitted. -/
theorem Destroy_ordered_witness :
    (parentTwoSidecars.Destroy envAllOk).trace = canonicalDestroyTrace parentTwoSidecars ∧
    ((parentTwoSidecars.Destroy envSc2Fails).inst = parentTwoSidecars ∧
      ∀ n, DestroyEvent.markDestroyed n ∉ (parentTwoSidecars.Destroy envSc2Fails).trace) :=
  ⟨((Destroy_ordered envAllOk parentTwoSidecars (.inl (by decide))).2.1).mp (by decide),
    (Destroy_ordered envSc2Fails parentTwoSidecars (.inl (by decide))).2.2.1 (by decide)⟩

/-! ## C5: idempotence of `Destroy` -/

/-- C5: `Destroy` on an already-Destroyed instance returns success, attempts
no remote deletion (empty trace — under any oracle), and leaves the instance
unchanged; consequently after any successful `Destroy` a second call (under
any oracle `env2`) succeeds as a complete no-op. -/
theorem Destroy_idempotent (env env2 : DestroyEnv) (i : Instance) :
    (i.state = .Destroyed → i.Destroy env = ⟨none, i, []⟩) ∧
    ((i.Destroy env).err = none →
      (i.Destroy env).inst.Destroy env2 = ⟨none, (i.Destroy env).inst, []⟩) := by
  refine ⟨destroy_destroyed env i, fun hok => ?_⟩
  apply destroy_destroyed
  by_cases hD : i.state = .Destroyed
  · rw [destroy_destroyed env i hD]; exact hD
  · by_cases hst : i.state = .Started ∨ i.state = .Stopped
    · by_cases hp : env.destroyPodOk i.k8sName = true
      · by_cases hr : env.destroyResourcesOk i.k8sName = true
        · rcases hcas : sidecarResourcesCascade env i.sidecars with ⟨o, t⟩
          cases o with
          | none => rw [destroy_success_eq env i t hst hp hr hcas]; rfl
          | some n =>
            rw [destroy_sidecar_fail env i n t hst hp hr hcas] at hok
            exact absurd hok (by simp)
        · rw [destroy_res_fail env i hst hp (by simpa using hr)] at hok
          exact absurd hok (by simp)
      · rw [destroy_pod_fail env i hst (by simpa using hp)] at hok
        exact absurd hok (by simp)
    · rw [destroy_notAllowed env i (fun h => hst (Or.inl h)) (fun h => hst (Or.inr h)) hD]
        at hok
      exact absurd hok (by simp)

/-- A Destroyed parent (whose sidecar list is not yet terminal, the worst
case for a no-op). -/
def destroyedParent : Instance := .mk "gone" .Destroyed [.mk "sc" .Started []]

/-- Witness for C5: the already-Destroyed instance is a successful no-op, and
a second call after a successful destroy is a no-op even under an oracle that
fails every deletion. -/
theorem Destroy_idempotent_witness :
    destroyedParent.Destroy envAllOk = ⟨none, destroyedParent, []⟩ ∧
    (parentTwoSidecars.Destroy envAllOk).inst.Destroy
        ⟨fun _ => false, fun _ => false⟩ =
      ⟨none, (parentTwoSidecars.Destroy envAllOk).inst, []⟩ :=
  ⟨(Destroy_idempotent envAllOk envAllOk destroyedParent).1 (by decide),
    (Destroy_idempotent envAllOk ⟨fun _ => false, fun _ => false⟩
      parentTwoSidecars).2 (by decide)⟩

/-! ## C6: guard enforcement of `Destroy` -/

/-- C6: from any state other than Started, Stopped or Destroyed, `Destroy`
returns the `destroyingNotAllowed` error carrying the offending state's
rendering, leaves the instance unchanged, and attempts no remote deletion
(empty trace); distinct states render distinctly, so the error names the
state. -/
theorem Destroy_guard (env : DestroyEnv) (i : Instance)
    (h1 : i.state ≠ .Started) (h2 : i.state ≠ .Stopped) (h3 : i.state ≠ .Destroyed) :
    i.Destroy env = ⟨some (.destroyingNotAllowed i.state.toString), i, []⟩ ∧
    ∀ s t : InstanceState, s.toString = t.toString → s = t :=
  ⟨destroy_notAllowed env i h1 h2 h3, by decide⟩

/-- A committed, never-started instance. -/
def committedInstance : Instance := .mk "c" .Committed []

/-- Witness for C6 at a Committed instance. -/
theorem Destroy_guard_witness :
    committedInstance.Destroy envAllOk =
      ⟨some (.destroyingNotAllowed "Committed"), committedInstance, []⟩ :=
  (Destroy_guard envAllOk committedInstance (by decide) (by decide) (by decide)).1

/-! ## C7: fail-fast `BatchDestroy` -/

/-- When every non-nil instance destroys cleanly, the batch loop returns
`nil` and its calls are exactly the per-instance destroys in order. -/
theorem batchGo_all_ok (env : DestroyEnv) :
    ∀ l : List (Option Instance),
      (∀ i : Instance, some i ∈ l → (i.Destroy env).err = none) →
      (batchDestroyGo env l).1 = none ∧
        (batchDestroyGo env l).2.2 = destroyTraces env l := by
  intro l
  induction l with
  | nil => exact fun _ => ⟨rfl, rfl⟩
  | cons o rest ih =>
    intro h
    cases o with
    | none =>
      have := ih fun i hi => h i (List.mem_cons_of_mem _ hi)
      simp [batchDestroyGo, destroyTraces, this.1, this.2]
    | some i =>
      have hi := h i (List.mem_cons_self _ _)
      have := ih fun j hj => h j (List.mem_cons_of_mem _ hj)
      simp [batchDestroyGo, destroyTraces, hi, this.1, this.2]

/-- The first failing destroy aborts the batch loop: its error is returned
and nothing after it is attempted. -/
theorem batchGo_first_err (env : DestroyEnv) :
    ∀ (pre : List (Option Instance)) (b : Instance) (post : List (Option Instance)),
      (∀ i : Instance, some i ∈ pre → (i.Destroy env).err = none) →
      (b.Destroy env).err.isSome = true →
      (batchDestroyGo env (pre ++ some b :: post)).1 = (b.Destroy env).err ∧
        (batchDestroyGo env (pre ++ some b :: post)).2.2 =
          destroyTraces env pre ++ (b.Destroy env).trace := by
  intro pre
  induction pre with
  | nil =>
    intro b post _ hb
    rcases hbe : (b.Destroy env).err with _ | e
    · rw [hbe] at hb; exact absurd hb (by simp)
    · simp [batchDestroyGo, hbe, destroyTraces]
  | cons o rest ih =>
    intro b post h hb
    cases o with
    | none =>
      have := ih b post (fun i hi => h i (List.mem_cons_of_mem _ hi)) hb
      simp [batchDestroyGo, destroyTraces, this.1, this.2]
    | some a =>
      have ha := h a (List.mem_cons_self _ _)
      have := ih b post (fun i hi => h i (List.mem_cons_of_mem _ hi)) hb
      simp [batchDestroyGo, destroyTraces, ha, this.1, this.2]

/-- C7 (with the `KNUU_SKIP_CLEANUP` toggle off): `BatchDestroy` applies
`Destroy` to each non-nil argument in argument order skipping nil entries —
when all succeed it returns `nil` and its remote calls are exactly the
per-instance destroy calls in order; when the arguments split around a first
failing instance `b`, it returns `b`'s error and its calls are exactly those
of the non-nil arguments before `b` followed by `b`'s, so no later argument's
`Destroy` is attempted. -/
theorem BatchDestroy_failfast (env : DestroyEnv) (l : List (Option Instance)) :
    ((∀ i : Instance, some i ∈ l → (i.Destroy env).err = none) →
      (BatchDestroy env false l).1 = none ∧
        (BatchDestroy env false l).2.2 = destroyTraces env l) ∧
    (∀ (pre : List (Option Instance)) (b : Instance) (post : List (Option Instance)),
      l = pre ++ some b :: post →
      (∀ i : Instance, some i ∈ pre → (i.Destroy env).err = none) →
      (b.Destroy env).err.isSome = true →
      (BatchDestroy env false l).1 = (b.Destroy env).err ∧
        (BatchDestroy env false l).2.2 =
          destroyTraces env pre ++ (b.Destroy env).trace) := by
  constructor
  · intro h
    simpa [BatchDestroy] using batchGo_all_ok env l h
  · intro pre b post hl h hb
    subst hl
    simpa [BatchDestroy] using batchGo_first_err env pre b post h hb

/-- Instance `A`, destroyed cleanly in `envBFails`. -/
def instA : Instance := .mk "A" .Started []

/-- Instance `B`, whose Pod deletion fails in `envBFails`. -/
def instB : Instance := .mk "B" .Started []

/-- Instance `C`, never reached by the failing batch. -/
def instC : Instance := .mk "C" .Started []

/-- A teardown environment in which only instance `B`'s Pod deletion fails. -/
def envBFails : DestroyEnv := ⟨fun n => n != "B", fun _ => true⟩

/-- Witness for C7: on `[A, nil, B, C]` with `B` failing, the batch returns
`B`'s error and the attempted calls are exactly `A`'s destroy followed by
`B`'s — nothing of `C`. -/
theorem BatchDestroy_failfast_witness :
    (BatchDestroy envBFails false [some instA, none, some instB, some instC]).1 =
      (instB.Destroy envBFails).err ∧
    (BatchDestroy envBFails false [some instA, none, some instB, some instC]).2.2 =
      destroyTraces envBFails [some instA, none] ++ (instB.Destroy envBFails).trace :=
  (BatchDestroy_failfast envBFails [some instA, none, some instB, some instC]).2
    [some instA, none] instB [some instC] rfl
    (by
      intro i hi
      simp at hi
      subst hi
      decide)
    (by decide)

/-! ## C8: `Changed` and the push no-op skip -/

/-- Each modification call appends exactly one instruction. -/
theorem applyOp_length (f : BuilderFactory) (op : BuildOp) :
    (applyOp f op).dockerFileInstructions.length =
      f.dockerFileInstructions.length + 1 := by
  cases op <;>
    simp [applyOp, BuilderFactory.ExecuteCmdInBuilder, BuilderFactory.AddToBuilder,
      BuilderFactory.SetEnvVar, BuilderFactory.SetUser]

/-- A sequence of modification calls appends exactly one instruction each. -/
theorem applyOps_length (ops : List BuildOp) :
    ∀ f : BuilderFactory,
      (applyOps f ops).dockerFileInstructions.length =
        f.dockerFileInstructions.length + ops.length := by
  induction ops with
  | nil => intro f; simp [applyOps]
  | cons op rest ih =>
    intro f
    have h1 : applyOps f (op :: rest) = applyOps (applyOp f op) rest := rfl
    rw [h1, ih (applyOp f op), applyOp_length]
    simp
    omega

/-- C8: on any factory built by `NewBuilderFactory` and a sequence of
modification calls, `Changed` is true iff at least one modification was made
(the list holds more than the initial `FROM` instruction); and whenever
`Changed` is false, `PushBuilderImage` returns success immediately with the
factory unchanged and an empty call trace — no manifest write, no build, no
registry interaction. -/
theorem Changed_iff_modified (img : String) (ctx : List ContextFile)
    (ops : List BuildOp) (env : PushEnv) (name : String) :
    ((applyOps (NewBuilderFactory img ctx) ops).Changed = true ↔ ops ≠ []) ∧
    (∀ f : BuilderFactory, f.Changed = false →
      f.PushBuilderImage env name = (none, f, [])) := by
  constructor
  · have h1 : (NewBuilderFactory img ctx).dockerFileInstructions.length = 1 := rfl
    rw [BuilderFactory.Changed, applyOps_length, h1, decide_eq_true_iff]
    constructor
    · intro h he
      subst he
      simp at h
    · intro h
      have := List.length_pos.mpr h
      omega
  · intro f hf
    simp [BuilderFactory.PushBuilderImage, hf]

/-- A push environment in which the manifest write and the build succeed. -/
def pushEnvOk : PushEnv := ⟨true, true⟩

/-- Witness for C8: one modification flips `Changed`; an unmodified factory's
push is an immediate success with no calls. -/
theorem Changed_iff_modified_witness :
    (applyOps (NewBuilderFactory "alpine" []) [BuildOp.setUser "root"]).Changed = true ∧
    (NewBuilderFactory "alpine" []).PushBuilderImage pushEnvOk "ttl.sh/x" =
      (none, NewBuilderFactory "alpine" [], []) :=
  ⟨(Changed_iff_modified "alpine" [] [BuildOp.setUser "root"] pushEnvOk "ttl.sh/x").1.mpr
      (by simp),
    (Changed_iff_modified "alpine" [] [] pushEnvOk "ttl.sh/x").2
      (NewBuilderFactory "alpine" []) (by decide)⟩

/-! ## C9: `ReadFileFromBuilder` -/

/-- The tar scan yields the file-not-found error iff the stream holds no
regular-file entry and terminates cleanly. -/
theorem scanTar_fnf_iff (l : List TarEntry) (fin : TarEnd) :
    scanTar l fin = .error .fileNotFoundInTar ↔
      (∀ e ∈ l, e.typeflag ≠ .reg) ∧ fin = .eof := by
  induction l with
  | nil => cases fin <;> simp [scanTar]
  | cons e rest ih =>
    by_cases hr : e.typeflag = .reg
    · by_cases hok : e.readOk
      · simp [scanTar, hr, hok]
      · simp [scanTar, hr, hok]
    · simp [scanTar, hr, ih]

/-- The tar scan returns the first regular-file entry's bytes (whatever its
header name), provided its body reads fully. -/
theorem scanTar_first_reg (fin : TarEnd) :
    ∀ (pre : List TarEntry) (e : TarEntry) (post : List TarEntry),
      (∀ x ∈ pre, x.typeflag ≠ .reg) → e.typeflag = .reg → e.readOk = true →
      scanTar (pre ++ e :: post) fin = .ok e.content := by
  intro pre
  induction pre with
  | nil =>
    intro e post _ hr hok
    simp [scanTar, hr, hok]
  | cons x rest ih =>
    intro e post hpre hr hok
    have hx := hpre x (List.mem_cons_self _ _)
    simp only [List.cons_append, scanTar, hx, if_neg]
    exact ih e post (fun y hy => hpre y (List.mem_cons_of_mem _ hy)) hr hok

/-- C9 as stated: the file-not-found error is surfaced exactly when the
archive stream contains no regular-file entry matching the requested path. -/
def fnfExactlyWhenNoMatch (env : ReadEnv) (f : BuilderFactory) (path : String) : Prop :=
  ((f.ReadFileFromBuilder env path).1 = .error .fileNotFoundInTar) ↔
    ¬∃ e ∈ env.archive, e.typeflag = .reg ∧ tarEntryMatches e path = true

/-- A factory that has recorded a destination image name. -/
def builtFactory : BuilderFactory :=
  { imageNameFrom := "img", imageNameTo := "built",
    dockerFileInstructions := ["FROM img"], buildContext := [] }

/-- An environment whose archive holds one regular entry named `bar`, not
matching the requested path `/etc/foo` in any sense. -/
def mismatchEnv : ReadEnv := ⟨true, true, true, [⟨"bar", .reg, [7], true⟩], .eof⟩

/-- Counterexample to C9 as stated: the code never compares entry names with
the requested path — on an archive whose only regular entry is named `bar`,
reading `/etc/foo` returns that entry's bytes instead of surfacing the
file-not-found error, although no entry matching the path exists. -/
theorem ReadFileFromBuilder_match_counterexample :
    ¬ fnfExactlyWhenNoMatch mismatchEnv builtFactory "/etc/foo" := by
  intro h
  have h2 := h.mpr (by decide)
  rw [show (BuilderFactory.ReadFileFromBuilder mismatchEnv builtFactory
    "/etc/foo").1 = Except.ok [7] from rfl] at h2
  exact Except.noConfusion h2

/-- C9 amended: after a successful container create (the deferred cleanup is
armed from that point), the emitted call trace always ends with the container
stop and remove, on success as well as on copy or archive failures; and when
start and copy succeed, the file-not-found error is surfaced exactly when the
archive stream terminates cleanly with no regular-file entry (names are never
compared), while the first regular entry's bytes are returned whenever one
exists and its body reads fully. -/
theorem ReadFileFromBuilder_spec (env : ReadEnv) (f : BuilderFactory) (path : String)
    (hI : f.imageNameTo ≠ "") (hC : env.createOk = true) :
    (∃ t, (f.ReadFileFromBuilder env path).2 =
      t ++ [ReadEvent.containerStop, ReadEvent.containerRemove]) ∧
    (env.startOk = true → env.copyOk = true →
      (((f.ReadFileFromBuilder env path).1 = .error .fileNotFoundInTar) ↔
        ((∀ e ∈ env.archive, e.typeflag ≠ .reg) ∧ env.archiveEnd = .eof)) ∧
      (∀ (pre : List TarEntry) (e : TarEntry) (post : List TarEntry),
        env.archive = pre ++ e :: post →
        (∀ x ∈ pre, x.typeflag ≠ .reg) → e.typeflag = .reg → e.readOk = true →
        (f.ReadFileFromBuilder env path).1 = .ok e.content)) := by
  by_cases hs : env.startOk = true
  · by_cases hcp : env.copyOk = true
    · constructor
      · exact ⟨[.containerCreate, .containerStart, .copyFromContainer],
          by simp [BuilderFactory.ReadFileFromBuilder, hI, hC, hs, hcp]⟩
      · intro _ _
        constructor
        · simpa [BuilderFactory.ReadFileFromBuilder, hI, hC, hs, hcp] using
            scanTar_fnf_iff env.archive env.archiveEnd
        · intro pre e post harch hpre hr hok
          simp only [BuilderFactory.ReadFileFromBuilder, hI, hC, hs, hcp]
          simpa [hI, hC, hs, hcp, harch] using
            scanTar_first_reg env.archiveEnd pre e post hpre hr hok
    · refine ⟨⟨[.containerCreate, .containerStart, .copyFromContainer],
        by simp [BuilderFactory.ReadFileFromBuilder, hI, hC, hs,
          (by simpa using hcp : env.copyOk = false)]⟩,
        fun _ hcp2 => absurd hcp2 hcp⟩
  · refine ⟨⟨[.containerCreate, .containerStart],
      by simp [BuilderFactory.ReadFileFromBuilder, hI, hC,
        (by simpa using hs : env.startOk = false)]⟩,
      fun hs2 _ => absurd hs2 hs⟩

/-- An archive with a directory entry followed by a regular entry. -/
def readEnvOk : ReadEnv :=
  ⟨true, true, true, [⟨"d", .dir, [], true⟩, ⟨"f", .reg, [5, 6], true⟩], .eof⟩

/-- An archive with no entries at all, cleanly terminated. -/
def readEnvEmpty : ReadEnv := ⟨true, true, true, [], .eof⟩

/-- Witness for the amended C9: cleanup events close the trace; the empty
archive surfaces file-not-found; the first regular entry's bytes come back. -/
theorem ReadFileFromBuilder_spec_witness :
    (∃ t, (builtFactory.ReadFileFromBuilder readEnvOk "/etc/f").2 =
      t ++ [ReadEvent.containerStop, ReadEvent.containerRemove]) ∧
    (builtFactory.ReadFileFromBuilder readEnvEmpty "/etc/f").1 =
      .error .fileNotFoundInTar ∧
    (builtFactory.ReadFileFromBuilder readEnvOk "/etc/f").1 = .ok [5, 6] :=
  ⟨(ReadFileFromBuilder_spec readEnvOk builtFactory "/etc/f" (by decide) rfl).1,
    ((ReadFileFromBuilder_spec readEnvEmpty builtFactory "/etc/f" (by decide) rfl).2
      rfl rfl).1.mpr (by decide),
    ((ReadFileFromBuilder_spec readEnvOk builtFactory "/etc/f" (by decide) rfl).2
      rfl rfl).2 [⟨"d", .dir, [], true⟩] ⟨"f", .reg, [5, 6], true⟩ [] rfl
      (by decide) rfl rfl⟩

/-! ## C10: missing destination image name -/

/-- C10: on a factory with no recorded destination image name (as every
factory is until a push or git build has run), `ReadFileFromBuilder` returns
the no-image-name error immediately, with an empty call trace — no container
create/start/stop/remove and no archive read, under any oracle. -/
theorem ReadFileFromBuilder_noImage (env : ReadEnv) (f : BuilderFactory)
    (path : String) (h : f.imageNameTo = "") :
    f.ReadFileFromBuilder env path = (.error .noImageNameProvided, []) := by
  simp [BuilderFactory.ReadFileFromBuilder, h]

/-- An environment that would fail (and record) every container call — it is
never consulted. -/
def readEnvNever : ReadEnv := ⟨false, false, false, [], .corrupt⟩

/-- Witness for C10 on a freshly constructed factory. -/
theorem ReadFileFromBuilder_noImage_witness :
    (NewBuilderFactory "alpine" []).ReadFileFromBuilder readEnvNever "/x" =
      (.error .noImageNameProvided, []) :=
  ReadFileFromBuilder_noImage readEnvNever (NewBuilderFactory "alpine" []) "/x" rfl

end Knuu
